import Mathlib

/-
  Verification development for the birthday data and cache engine.

  The definitions below are a shallow embedding of the TypeScript sources
  (src/utils/dates.ts, src/utils/validators.ts, src/utils/migration.ts,
  src/utils/storage.ts and the home-view generator).  Calendar dates are
  modelled as (year, month, day) triples of naturals together with a
  day-number function (days counted from the start of year 1), which models
  the JavaScript Date value of local midnight used by the source: for valid
  calendar dates, comparison and difference of Date values agree with
  comparison and difference of day numbers, and the millisecond arithmetic
  in the source (Math.ceil of an exact multiple of a day) is exact.
-/

namespace DwellBirthday

/-- Embedding of isLeapYear from src/utils/dates.ts: divisible by 4 and not
by 100, or divisible by 400. -/
def isLeapYear (y : Nat) : Bool :=
  (y % 4 == 0 && y % 100 != 0) || (y % 400 == 0)

/-- Month names table from src/utils/dates.ts. -/
def MONTH_NAMES : List String :=
  ["January", "February", "March", "April", "May", "June",
   "July", "August", "September", "October", "November", "December"]

/-- Day counts per month in a non-leap year, as in isValidDate of
src/utils/validators.ts. -/
def daysInMonthTable : List Nat := [31, 28, 31, 30, 31, 30, 31, 31, 30, 31, 30, 31]

/-- Number of days of month m in year y of the civil calendar. -/
def daysInMonth (y m : Nat) : Nat :=
  if m = 2 then (if isLeapYear y then 29 else 28)
  else if m = 4 ∨ m = 6 ∨ m = 9 ∨ m = 11 then 30
  else 31

/-- Cumulative day count before month m in a non-leap year. -/
def cumDaysBeforeMonth (m : Nat) : Nat :=
  match m with
  | 1 => 0 | 2 => 31 | 3 => 59 | 4 => 90 | 5 => 120 | 6 => 151
  | 7 => 181 | 8 => 212 | 9 => 243 | 10 => 273 | 11 => 304 | _ => 334

/-- Days of year y that precede month m. -/
def daysBeforeMonth (y m : Nat) : Nat :=
  cumDaysBeforeMonth m + (if 2 < m ∧ isLeapYear y then 1 else 0)

/-- Number of leap years between 1 and y inclusive. -/
def leapYearsUpTo (y : Nat) : Nat := y / 4 + y / 400 - y / 100

/-- Days in years 1 .. y-1, i.e. days from Jan 1 of year 1 to Jan 1 of year y. -/
def daysBeforeYear (y : Nat) : Nat := 365 * (y - 1) + leapYearsUpTo (y - 1)

/-- Day number of a civil date: days from Jan 1 of year 1.  This models the
JavaScript Date value (local midnight) up to an affine change of units. -/
def dayNumber (y m d : Nat) : Nat := daysBeforeYear y + daysBeforeMonth y m + (d - 1)

/-- The Feb 29 fallback of getDaysUntilBirthday: in a non-leap year a stored
(2, 29) is replaced by (2, 28) before the candidate date is built. -/
def februarySubstitution (y month day : Nat) : Nat × Nat :=
  if month = 2 ∧ day = 29 ∧ ¬ (isLeapYear y = true) then (2, 28) else (month, day)

/-- Embedding of getDaysUntilBirthday from src/utils/dates.ts.  The reference
date fromDate is already normalized to a calendar day (fy, fm, fd); the
candidate occurrence is built in the current year with the Feb 29 fallback,
rebuilt for the next year if it lies strictly before the reference day, and
the result is the exact day difference. -/
def getDaysUntilBirthday (month day fy fm fd : Nat) : Int :=
  if dayNumber fy (februarySubstitution fy month day).1 (februarySubstitution fy month day).2
      < dayNumber fy fm fd then
    (dayNumber (fy + 1) (februarySubstitution (fy + 1) month day).1
        (februarySubstitution (fy + 1) month day).2 : Int) - (dayNumber fy fm fd : Int)
  else
    (dayNumber fy (februarySubstitution fy month day).1
        (februarySubstitution fy month day).2 : Int) - (dayNumber fy fm fd : Int)

/-- Embedding of isValidDate from src/utils/validators.ts: month 1-12, day
at least 1, (2, 29) always allowed, otherwise day bounded by the non-leap
month table. -/
def isValidDate (month day : Int) : Bool :=
  if month < 1 ∨ 12 < month then false
  else if day < 1 then false
  else if month = 2 ∧ day = 29 then true
  else day ≤ (daysInMonthTable.getD ((month - 1).toNat) 0 : Nat)

/-- A (year, month, day) triple that denotes a real civil calendar date. -/
def ValidCivil (y m d : Nat) : Prop :=
  1 ≤ y ∧ 1 ≤ m ∧ m ≤ 12 ∧ 1 ≤ d ∧ d ≤ daysInMonth y m

instance (y m d : Nat) : Decidable (ValidCivil y m d) := by
  unfold ValidCivil; infer_instance

/-
  Dynamic JSON values.  Payloads reaching the validator and migrator come
  from JSON.parse, so the model has no NaN or undefined number values;
  undefined appears only as the result of a missing property lookup.
  Numbers are modelled as rationals (every JSON double is rational; the
  only numeric operations used are Math.floor and comparisons).  String
  operations (trim, toLowerCase, length) are modelled on the ASCII
  fragment the repository exercises.
-/

/-- Dynamic JavaScript value as seen by the validators and the migrator. -/
inductive JVal where
  | undefinedV
  | null
  | bool (b : Bool)
  | num (q : Rat)
  | str (s : String)
  | arr (elems : List JVal)
  | obj (fields : List (String × JVal))

/-- Result of the typeof operator. -/
def JVal.typeof : JVal → String
  | .undefinedV => "undefined"
  | .null => "object"
  | .bool _ => "boolean"
  | .num _ => "number"
  | .str _ => "string"
  | .arr _ => "object"
  | .obj _ => "object"

/-- JavaScript truthiness. -/
def JVal.truthy : JVal → Bool
  | .undefinedV => false
  | .null => false
  | .bool b => b
  | .num q => !(q == 0)
  | .str s => !(s == "")
  | .arr _ => true
  | .obj _ => true

/-- Property access: missing keys and non-objects give undefined. -/
def JVal.getField : JVal → String → JVal
  | .obj fs, k => (fs.lookup k).getD .undefinedV
  | _, _ => .undefinedV

/-- Array indexing: out-of-range gives undefined. -/
def jsIndex (l : List JVal) (i : Nat) : JVal := l.getD i .undefinedV

/-- The operator a or-else b of JavaScript: a when truthy, otherwise b. -/
def jsOr (a b : JVal) : JVal := if a.truthy then a else b

/-- Characters stripped by String.prototype.trim (ASCII fragment). -/
def jsWhitespaceChar (c : Char) : Bool :=
  c == ' ' || c == '\t' || c == '\n' || c == '\r' || c == '\x0b' || c == '\x0c'

/-- List-level trim used by jsTrim. -/
def jsTrimList (l : List Char) : List Char :=
  ((l.dropWhile jsWhitespaceChar).reverse.dropWhile jsWhitespaceChar).reverse

/-- Embedding of String.prototype.trim. -/
def jsTrim (s : String) : String := ⟨jsTrimList s.data⟩

/-- Embedding of String.prototype.toLowerCase on the ASCII fragment. -/
def jsToLower (s : String) : String := ⟨s.data.map Char.toLower⟩

/-- Character-list splitter (empty pieces kept, as JavaScript split keeps
them); the split of the empty list is one empty piece. -/
def splitChars (p : Char → Bool) : List Char → List (List Char)
  | [] => [[]]
  | c :: rest =>
    if p c then [] :: splitChars p rest
    else
      match splitChars p rest with
      | [] => [[c]]
      | g :: gs => (c :: g) :: gs

/-- Embedding of String.prototype.split against a character class. -/
def jsSplit (s : String) (p : Char → Bool) : List String :=
  (splitChars p s.data).map (fun l => ⟨l⟩)

/-- Worker for collapseWs: the flag records whether the previous character
was whitespace, so each whitespace run emits a single space. -/
def collapseWsGo : List Char → Bool → List Char
  | [], _ => []
  | c :: rest, prev =>
    if jsWhitespaceChar c then
      if prev then collapseWsGo rest true else ' ' :: collapseWsGo rest true
    else c :: collapseWsGo rest false

/-- Embedding of .replace of whitespace runs by a single space, as used on
names by sanitizeBirthdayInput. -/
def collapseWs (s : String) : String := ⟨collapseWsGo s.data false⟩

/-- Numeric value of a digit string. -/
def digitsToNat (l : List Char) : Nat :=
  l.foldl (fun a c => a * 10 + (c.toNat - '0'.toNat)) 0

/-- Value of the leading digit run, none when there is no digit. -/
def leadingDigitsVal (l : List Char) : Option Nat :=
  let ds := l.takeWhile Char.isDigit
  if ds.isEmpty then none else some (digitsToNat ds)

/-- Embedding of parseInt(s, 10): skip leading whitespace, optional sign,
value of the leading digit run; none models NaN. -/
def parseIntJS (s : String) : Option Int :=
  match s.data.dropWhile jsWhitespaceChar with
  | '+' :: rest => (leadingDigitsVal rest).map (fun n => (n : Int))
  | '-' :: rest => (leadingDigitsVal rest).map (fun n => -(n : Int))
  | rest => (leadingDigitsVal rest).map (fun n => (n : Int))

/-- Validated roster entry, as produced by validateBirthdayEntry. -/
structure Birthday where
  name : String
  month : Int
  day : Int
  slackUserId : Option String := none
deriving DecidableEq, Repr

/-- The current-format roster document. -/
structure BirthdayData where
  birthdays : List Birthday
deriving DecidableEq, Repr

/-- Embedding of the ValidationError class: message plus optional field tag. -/
structure ValidationError where
  message : String
  field : Option String := none
deriving DecidableEq, Repr

instance {ε α : Type} [DecidableEq ε] [DecidableEq α] : DecidableEq (Except ε α)
  | .error a, .error b =>
    if h : a = b then .isTrue (by rw [h]) else .isFalse (by intro hc; cases hc; exact h rfl)
  | .error _, .ok _ => .isFalse (by intro hc; cases hc)
  | .ok _, .error _ => .isFalse (by intro hc; cases hc)
  | .ok a, .ok b =>
    if h : a = b then .isTrue (by rw [h]) else .isFalse (by intro hc; cases hc; exact h rfl)

/-- The Slack user id pattern of validateBirthdayEntry: U followed by at
least 8 characters from A-Z and 0-9. -/
def slackUserIdPattern (s : String) : Bool :=
  match s.data with
  | 'U' :: rest =>
    decide (8 ≤ rest.length) &&
      rest.all (fun c => ('A' ≤ c && c ≤ 'Z') || ('0' ≤ c && c ≤ '9'))
  | _ => false

/-- Embedding of validateBirthdayEntry from src/utils/validators.ts.  It
follows the source checks in order: object shape, name (truthy string,
trimmed length 1..100), month (truthy number, floored, 1..12), day (truthy
number, floored, 1..31, then isValidDate), optional slackUserId. -/
def validateBirthdayEntry (v : JVal) : Except ValidationError Birthday :=
  if !v.truthy || v.typeof != "object" then
    .error ⟨"Birthday entry must be an object", none⟩
  else
    match v.getField "name" with
    | .str rawName =>
      if rawName == "" then
        .error ⟨"Birthday entry must have a valid name", some "name"⟩
      else
        let name := jsTrim rawName
        if name.length == 0 then
          .error ⟨"Birthday name cannot be empty", some "name"⟩
        else if 100 < name.length then
          .error ⟨"Birthday name cannot exceed 100 characters", some "name"⟩
        else
          match v.getField "month" with
          | .num qm =>
            if qm == 0 then
              .error ⟨"Birthday entry must have a valid month", some "month"⟩
            else
              let month : Int := qm.floor
              if month < 1 || 12 < month then
                .error ⟨"Month must be between 1 and 12", some "month"⟩
              else
                match v.getField "day" with
                | .num qd =>
                  if qd == 0 then
                    .error ⟨"Birthday entry must have a valid day", some "day"⟩
                  else
                    let day : Int := qd.floor
                    if day < 1 || 31 < day then
                      .error ⟨"Day must be between 1 and 31", some "day"⟩
                    else if !(isValidDate month day) then
                      .error ⟨"Invalid date: " ++ toString month ++ "/" ++ toString day,
                              some "day"⟩
                    else
                      match v.getField "slackUserId" with
                      | .undefinedV => .ok ⟨name, month, day, none⟩
                      | .str sid =>
                        let t := jsTrim sid
                        if t == "" then .ok ⟨name, month, day, none⟩
                        else if !(slackUserIdPattern t) then
                          .error ⟨"slackUserId must be a valid Slack user ID format " ++
                                  "(U followed by 8+ characters)", some "slackUserId"⟩
                        else .ok ⟨name, month, day, some t⟩
                      | _ => .error ⟨"slackUserId must be a string", some "slackUserId"⟩
                | _ => .error ⟨"Birthday entry must have a valid day", some "day"⟩
          | _ => .error ⟨"Birthday entry must have a valid month", some "month"⟩
    | _ => .error ⟨"Birthday entry must have a valid name", some "name"⟩

/-- Re-wrapping performed by the catch block of validateBirthdayData: the
message is prefixed by the entry index and the field is prefixed by the
array path of the entry. -/
def wrapEntryError (i : Nat) (e : ValidationError) : ValidationError :=
  ⟨"Birthday entry " ++ toString i ++ ": " ++ e.message,
   some ("birthdays[" ++ toString i ++ "]" ++
     (match e.field with
      | some f => "." ++ f
      | none => ""))⟩

/-- The per-entry loop of validateBirthdayData: validate each entry, then
check its lower-cased name against the names seen so far (the duplicate
check is interleaved with per-entry validation). -/
def validateEntriesLoop :
    List JVal → Nat → List String → List Birthday → Except ValidationError (List Birthday)
  | [], _, _, acc => .ok acc.reverse
  | item :: rest, i, seen, acc =>
    match validateBirthdayEntry item with
    | .error e => .error (wrapEntryError i e)
    | .ok b =>
      let normalized := jsToLower b.name
      if seen.contains normalized then
        .error (wrapEntryError i
          ⟨"Duplicate name found: " ++ b.name,
           some ("birthdays[" ++ toString i ++ "].name")⟩)
      else
        validateEntriesLoop rest (i + 1) (normalized :: seen) (b :: acc)

/-- Embedding of validateBirthdayData from src/utils/validators.ts. -/
def validateBirthdayData (v : JVal) : Except ValidationError BirthdayData :=
  if !v.truthy || v.typeof != "object" then
    .error ⟨"Birthday data must be an object", none⟩
  else
    match v.getField "birthdays" with
    | .arr items =>
      match validateEntriesLoop items 0 [] [] with
      | .error e => .error e
      | .ok bs => .ok ⟨bs⟩
    | _ => .error ⟨"Birthday data must have a birthdays array", some "birthdays"⟩

/-- Embedding of validateBirthdayDataLimits: at most 1000 entries, checked
only at the storage-write boundary. -/
def validateBirthdayDataLimits (data : BirthdayData) : Except ValidationError Unit :=
  if 1000 < data.birthdays.length then
    .error ⟨"Too many birthdays: " ++ toString data.birthdays.length ++
            ". Maximum allowed: 1000", none⟩
  else .ok ()

/-- Embedding of sanitizeBirthdayInput: clean name, month, day and
slackUserId, then run validateBirthdayEntry on the sanitized object.  This
is the only place internal whitespace runs are collapsed. -/
def sanitizeBirthdayInput (v : JVal) : Except ValidationError Birthday :=
  if !v.truthy || v.typeof != "object" then
    .error ⟨"Input must be an object", none⟩
  else
    let name : String :=
      match v.getField "name" with
      | .str s => collapseWs (jsTrim s)
      | _ => ""
    let month : Int :=
      match v.getField "month" with
      | .num q => q.floor
      | .str s => (parseIntJS s).getD 0
      | _ => 0
    let day : Int :=
      match v.getField "day" with
      | .num q => q.floor
      | .str s => (parseIntJS s).getD 0
      | _ => 0
    let sid : Option String :=
      match v.getField "slackUserId" with
      | .str s => if jsTrim s == "" then none else some (jsTrim s)
      | _ => none
    validateBirthdayEntry (.obj
      [("name", .str name), ("month", .num (month : Rat)), ("day", .num (day : Rat)),
       ("slackUserId", match sid with | some t => .str t | none => .undefinedV)])

/-- Embedding of getMonthName: table lookup with Unknown fallback. -/
def getMonthName (m : Int) : String :=
  if m < 1 then "Unknown" else MONTH_NAMES.getD (m.toNat - 1) "Unknown"

/-- Embedding of formatBirthdayDate with the default long month names. -/
def formatBirthdayDate (month day : Int) : String :=
  getMonthName month ++ " " ++ toString day

/-- A roster entry annotated for display, as produced by
calculateUpcomingBirthdays. -/
structure UpcomingBirthday extends Birthday where
  daysUntil : Int
  monthName : String
  displayDate : String
deriving DecidableEq, Repr

/-- Lexicographic three-way comparison of character lists by codepoint. -/
def strCmpInt : List Char → List Char → Int
  | [], [] => 0
  | [], _ :: _ => -1
  | _ :: _, [] => 1
  | a :: as, b :: bs =>
    if a.toNat < b.toNat then -1
    else if b.toNat < a.toNat then 1
    else strCmpInt as bs

/-- Model of String.prototype.localeCompare as the sign of lexicographic
codepoint comparison (the source relies on the runtime locale; any total
order satisfies the sortedness claims). -/
def localeCompareInt (a b : String) : Int := strCmpInt a.data b.data

/-- The comparator passed to .sort by calculateUpcomingBirthdays: days
until first, then name comparison. -/
def upcomingCompare (a b : UpcomingBirthday) : Int :=
  if a.daysUntil != b.daysUntil then a.daysUntil - b.daysUntil
  else localeCompareInt a.name b.name

/-- Insertion step of the stable sort: the new element goes after every
element that does not compare strictly greater. -/
def sortInsert (cmp : α → α → Int) (x : α) : List α → List α
  | [] => [x]
  | y :: ys => if cmp x y < 0 then x :: y :: ys else y :: sortInsert cmp x ys

/-- Model of Array.prototype.sort with a comparator: a stable sort.  The
stable sort of a list under a consistent comparator is unique, so any
stable algorithm is a faithful model. -/
def jsSortBy (cmp : α → α → Int) (l : List α) : List α :=
  l.foldl (fun acc x => sortInsert cmp x acc) []

/-- Construction of the annotated entry pushed by calculateUpcomingBirthdays. -/
def mkUpcoming (b : Birthday) (du : Int) : UpcomingBirthday :=
  ⟨b, du, getMonthName b.month, formatBirthdayDate b.month b.day⟩

/-- Embedding of calculateUpcomingBirthdays from src/utils/dates.ts; the
reference day (new Date() in the source) is the explicit (fy, fm, fd).
Month and day are integers in a validated roster, so the Nat conversion in
the day computation is exact on every reachable input. -/
def calculateUpcomingBirthdays (birthdays : List Birthday) (days : Int)
    (fy fm fd : Nat) : List UpcomingBirthday :=
  jsSortBy upcomingCompare (birthdays.filterMap (fun b =>
    let daysUntil := getDaysUntilBirthday b.month.toNat b.day.toNat fy fm fd
    if daysUntil ≤ days then some (mkUpcoming b daysUntil) else none))

/-- Ceiling division used by formatRelativeDate (arguments are positive on
every call site). -/
def jsCeilDivPos (a b : Int) : Int := (a + b - 1) / b

/-- Embedding of formatRelativeDate from src/utils/dates.ts. -/
def formatRelativeDate (daysUntil : Int) : String :=
  if daysUntil == 0 then "today"
  else if daysUntil == 1 then "tomorrow"
  else if daysUntil ≤ 7 then "in " ++ toString daysUntil ++ " days"
  else if daysUntil ≤ 14 then
    "in " ++ toString (jsCeilDivPos daysUntil 7) ++ " week" ++
      (if 7 < daysUntil then "s" else "")
  else if daysUntil ≤ 60 then "in " ++ toString (jsCeilDivPos daysUntil 7) ++ " weeks"
  else "in " ++ toString (jsCeilDivPos daysUntil 30) ++ " months"

/-- Slack home-view block, reduced to the fields the claims are about. -/
inductive SBlock where
  | headerBlock (text : String)
  | sectionBlock (text : String)
  | contextBlock (text : String)
  | dividerBlock
deriving DecidableEq, Repr

/-- The grouping key of the upcoming section: daysUntil and displayDate
joined by a dash, exactly as built by the source. -/
def upcomingKey (b : UpcomingBirthday) : String :=
  toString b.daysUntil ++ "-" ++ b.displayDate

/-- Insertion into the key-indexed group record, preserving first-seen key
order (Object keys of the source are non-numeric strings, so entries
iterate in insertion order). -/
def groupInsert (key : String) (b : UpcomingBirthday) :
    List (String × List UpcomingBirthday) → List (String × List UpcomingBirthday)
  | [] => [(key, [b])]
  | (k, g) :: rest =>
    if k == key then (k, g ++ [b]) :: rest else (k, g) :: groupInsert key b rest

/-- The birthdayGroups record of generateUpcomingBirthdaysSection. -/
def groupUpcoming (future : List UpcomingBirthday) :
    List (String × List UpcomingBirthday) :=
  future.foldl (fun acc b => groupInsert (upcomingKey b) b acc) []

/-- Numeric sort key of a group: parseInt of the part before the first
dash of the key string. -/
def keyDays (k : String) : Int :=
  (parseIntJS ((jsSplit k (fun c => c == '-')).headD "")).getD 0

/-- The group comparator of the source sort. -/
def groupCompare (a b : String × List UpcomingBirthday) : Int :=
  keyDays a.1 - keyDays b.1

/-- Groups after the stable sort by days. -/
def sortedGroupsOf (future : List UpcomingBirthday) :
    List (String × List UpcomingBirthday) :=
  jsSortBy groupCompare (groupUpcoming future)

/-- Groups that survive the display cap (slice to 10 or 20). -/
def renderedGroupsOf (future : List UpcomingBirthday) (expanded : Bool) :
    List (String × List UpcomingBirthday) :=
  (sortedGroupsOf future).take (if expanded then 20 else 10)

/-- Rendering of one group line: emoji tier, display date, relative date,
and the joined name list of every member of the group. -/
def renderGroupLine (g : List UpcomingBirthday) : SBlock :=
  match g with
  | [] => .sectionBlock ""
  | f :: _ =>
    let namesList := String.intercalate ", " (g.map (fun b =>
      match b.slackUserId with
      | some id => if id == "" then "**" ++ b.name ++ "**" else "<@" ++ id ++ ">"
      | none => "**" ++ b.name ++ "**"))
    let emoji :=
      if f.daysUntil == 1 then "🎁"
      else if f.daysUntil ≤ 7 then "📅" else "🎉"
    .sectionBlock (emoji ++ " *" ++ f.displayDate ++ "* (" ++
      formatRelativeDate f.daysUntil ++ ")\n" ++ namesList)

/-- The future filter of generateUpcomingBirthdaysSection (strictly
positive daysUntil). -/
def futureOf (ups : List UpcomingBirthday) : List UpcomingBirthday :=
  ups.filter (fun b => decide (0 < b.daysUntil))

/-- Header text of the upcoming section. -/
def upcomingHeaderText (ups : List UpcomingBirthday) (expanded : Bool) : String :=
  if expanded then
    "📅 *Upcoming Birthdays* (next " ++
      toString ((((futureOf ups).getLast?).map (fun b => b.daysUntil)).getD 0) ++
      " days)"
  else "📅 *Upcoming Birthdays* (next 30 days)"

/-- The more-summary block of the upcoming section: present exactly when
the future entry count exceeds the rendered group count, and reporting
that difference. -/
def upcomingSummary (ups : List UpcomingBirthday) (expanded : Bool) : List SBlock :=
  if (renderedGroupsOf (futureOf ups) expanded).length < (futureOf ups).length then
    [SBlock.contextBlock ("... and " ++
      toString ((futureOf ups).length
        - (renderedGroupsOf (futureOf ups) expanded).length) ++ " more")]
  else []

/-- Embedding of HomeViewGenerator.generateUpcomingBirthdaysSection: filter
to the future entries, group by key, sort, cap, render one line per group,
and append the more-summary when the future entry count exceeds the count
of rendered groups. -/
def generateUpcomingBirthdaysSection (upcomingBirthdays : List UpcomingBirthday)
    (expanded : Bool) : List SBlock :=
  if (futureOf upcomingBirthdays).isEmpty then []
  else
    [SBlock.sectionBlock (upcomingHeaderText upcomingBirthdays expanded)] ++
    (renderedGroupsOf (futureOf upcomingBirthdays) expanded).map
      (fun g => renderGroupLine g.2) ++
    upcomingSummary upcomingBirthdays expanded ++
    [SBlock.dividerBlock]

/-- Result record of migrateFromV0 (data, success, warnings, errors). -/
structure MigrationPartial where
  data : Option BirthdayData := none
  success : Bool
  warnings : List String
  errors : List String
deriving DecidableEq, Repr

/-- Embedding of the MigrationResult record of src/utils/migration.ts. -/
structure MigrationResult where
  success : Bool
  originalVersion : Option Nat
  targetVersion : Nat
  migratedData : Option BirthdayData := none
  warnings : List String
  errors : List String
deriving DecidableEq, Repr

/-- The current schema version constant. -/
def CURRENT_SCHEMA_VERSION : Nat := 1

/-- Embedding of detectDataVersion: structural sniffing of the current
format (first birthdays entry has numeric month and day and string name),
then of the legacy format (first members-or-birthdays entry has a string
date and name); anything else is null. -/
def detectDataVersion (v : JVal) : Option Nat :=
  if !v.truthy || v.typeof != "object" then none
  else
    let isV1 : Bool :=
      match v.getField "birthdays" with
      | .arr bs =>
        let fb := jsIndex bs 0
        fb.truthy && fb.typeof == "object" &&
          (fb.getField "month").typeof == "number" &&
          (fb.getField "day").typeof == "number" &&
          (fb.getField "name").typeof == "string"
      | _ => false
    if isV1 then some 1
    else
      let hasLegacyArray : Bool :=
        (match v.getField "members" with | .arr _ => true | _ => false) ||
        (match v.getField "birthdays" with | .arr _ => true | _ => false)
      if hasLegacyArray then
        match jsOr (v.getField "members") (v.getField "birthdays") with
        | .arr members =>
          if members.length == 0 then none
          else
            let fm := jsIndex members 0
            if fm.truthy && fm.typeof == "object" &&
               (fm.getField "date").typeof == "string" &&
               (fm.getField "name").typeof == "string" then some 0
            else none
        | _ => none
      else none

/-- Embedding of migrateLegacyBirthday: split the date string on slash or
dash, parse both parts as integers (none models NaN), fail the single
entry otherwise. -/
def migrateLegacyBirthday (legacy : JVal) : Except ValidationError Birthday :=
  match legacy.getField "name" with
  | .str nm =>
    match legacy.getField "date" with
    | .str date =>
      let dateParts := jsSplit date (fun c => c == '/' || c == '-')
      if dateParts.length != 2 then
        .error ⟨"Invalid date format: " ++ date ++ ". Expected MM/DD or MM-DD", none⟩
      else
        match parseIntJS (dateParts.getD 0 ""), parseIntJS (dateParts.getD 1 "") with
        | some month, some day =>
          let sid : Option String :=
            match legacy.getField "slackUserId" with
            | .str s =>
              if s == "" then none
              else if jsTrim s == "" then none else some (jsTrim s)
            | _ => none
          .ok ⟨jsTrim nm, month, day, sid⟩
        | _, _ => .error ⟨"Invalid date numbers in: " ++ date, none⟩
    | _ => .error ⟨"Missing or invalid date", none⟩
  | _ => .error ⟨"Missing or invalid name", none⟩

/-- Reconstruction of the dynamic object a migrated Birthday presents to
validateBirthdayData (an absent slackUserId reads as undefined). -/
def Birthday.toJVal (b : Birthday) : JVal :=
  .obj [("name", .str b.name), ("month", .num (b.month : Rat)),
        ("day", .num (b.day : Rat)),
        ("slackUserId", match b.slackUserId with | some t => .str t | none => .undefinedV)]

/-- Dynamic view of a roster document. -/
def BirthdayData.toJVal (d : BirthdayData) : JVal :=
  .obj [("birthdays", .arr (d.birthdays.map Birthday.toJVal))]

/-- The per-entry loop of migrateFromV0: non-objects and entries rejected
by migrateLegacyBirthday are skipped with one warning each; the rest are
migrated in order. -/
def migrateEntriesLoop : List JVal → Nat → (List Birthday × List String)
  | [], _ => ([], [])
  | item :: rest, i =>
    let tail := migrateEntriesLoop rest (i + 1)
    if !item.truthy || item.typeof != "object" then
      (tail.1, ("Skipping invalid birthday entry at index " ++ toString i) :: tail.2)
    else
      match migrateLegacyBirthday item with
      | .ok b => (b :: tail.1, tail.2)
      | .error e =>
        (tail.1, ("Skipping birthday entry at index " ++ toString i ++ ": " ++ e.message)
          :: tail.2)

/-- Embedding of migrateFromV0: resolve the legacy array from members
or-else birthdays, run the entry loop, hard-fail on zero migrated entries,
then run validateBirthdayData on the assembled roster (a validation throw
is caught and recorded as a V0 migration failure). -/
def migrateFromV0 (v : JVal) : MigrationPartial :=
  if !v.truthy || v.typeof != "object" then
    { success := false, warnings := [], errors := ["Invalid data format"] }
  else
    match jsOr (v.getField "members") (v.getField "birthdays") with
    | .arr legacyBirthdays =>
      let looped := migrateEntriesLoop legacyBirthdays 0
      if looped.1.isEmpty then
        { success := false, warnings := looped.2,
          errors := ["No valid birthdays could be migrated"] }
      else
        match validateBirthdayData (BirthdayData.mk looped.1).toJVal with
        | .ok validatedData =>
          { data := some validatedData, success := true,
            warnings := looped.2, errors := [] }
        | .error e =>
          { success := false, warnings := looped.2,
            errors := ["V0 migration failed: " ++ e.message] }
    | _ =>
      { success := false, warnings := [],
        errors := ["No birthday array found in legacy data"] }

/-- Embedding of migrateToLatestFormat: validate directly at version 1,
run migrateFromV0 at version 0 or when the version is undetectable (with
an extra warning), reject other versions. -/
def migrateToLatestFormat (v : JVal) : MigrationResult :=
  match detectDataVersion v with
  | some 1 =>
    match validateBirthdayData v with
    | .ok validatedData =>
      { success := true, originalVersion := some 1, targetVersion := 1,
        migratedData := some validatedData, warnings := [], errors := [] }
    | .error e =>
      { success := false, originalVersion := some 1, targetVersion := 1,
        warnings := [], errors := ["Migration failed: " ++ e.message] }
  | none =>
    let m := migrateFromV0 v
    { success := m.success, originalVersion := none, targetVersion := 1,
      migratedData := m.data,
      warnings := "Could not detect data version, attempting automatic migration"
        :: m.warnings,
      errors := m.errors }
  | some 0 =>
    let m := migrateFromV0 v
    { success := m.success, originalVersion := some 0, targetVersion := 1,
      migratedData := m.data, warnings := m.warnings, errors := m.errors }
  | some other =>
    { success := false, originalVersion := some other, targetVersion := 1,
      warnings := [], errors := ["Unsupported data version: " ++ toString other] }

/-- The single cached rendered view slot (data, timestamp, expiresAt). -/
structure CacheEntry where
  data : JVal
  timestamp : Int
  expiresAt : Int

/-- State of the external key-value store as seen by StorageService: one
roster document slot and one rendered-view cache slot. -/
structure KVState where
  birthdayData : Option BirthdayData := none
  cacheHomeView : Option CacheEntry := none

/-- Embedding of StorageService.storeCachedHomeView: write a Warm entry
whose expiresAt is now plus the ttl. -/
def storeCachedHomeView (kv : KVState) (data : JVal) (now expirationSeconds : Int) :
    KVState :=
  { kv with cacheHomeView := some ⟨data, now, now + expirationSeconds * 1000⟩ }

/-- Embedding of StorageService.getCachedHomeView: null on an empty slot,
lazy expiry when now is past expiresAt, the payload otherwise. -/
def getCachedHomeView (kv : KVState) (now : Int) : Option JVal :=
  match kv.cacheHomeView with
  | none => none
  | some entry => if entry.expiresAt < now then none else some entry.data

/-- Embedding of StorageService.clearCachedHomeView: delete the cache key. -/
def clearCachedHomeView (kv : KVState) : KVState := { kv with cacheHomeView := none }

/-- Embedding of StorageService.storeBirthdayData: validate, check limits,
write the roster, then clear the cached home view; a validation failure
throws and writes nothing. -/
def storeBirthdayData (kv : KVState) (data : JVal) : Except ValidationError KVState :=
  match validateBirthdayData data with
  | .error e => .error e
  | .ok validatedData =>
    match validateBirthdayDataLimits validatedData with
    | .error e => .error e
    | .ok _ => .ok (clearCachedHomeView { kv with birthdayData := some validatedData })

/-- Embedding of the read path of StorageService.getBirthdayData: a missing
key yields the empty roster, otherwise the stored document is migrated and
a failed migration throws (the source then re-persists migrated legacy
data; that write-back does not change the returned value and is omitted).
The source reads migratedData with a non-null assertion; on success it is
always present, modelled by a default. -/
def getBirthdayData (stored : Option JVal) : Except String BirthdayData :=
  match stored with
  | none => .ok ⟨[]⟩
  | some rawData =>
    let migrationResult := migrateToLatestFormat rawData
    if !migrationResult.success then
      .error ("Data migration failed: " ++
        String.intercalate ", " migrationResult.errors)
    else .ok (migrationResult.migratedData.getD ⟨[]⟩)

/-
  Concrete inputs used by counterexamples and witnesses.
-/

/-- Character-list prefix test. -/
def listStartsWith : List Char → List Char → Bool
  | [], _ => true
  | _ :: _, [] => false
  | a :: as, b :: bs => a == b && listStartsWith as bs

/-- Character-list infix test (needle, then haystack). -/
def listContainsSub (needle : List Char) : List Char → Bool
  | [] => needle.isEmpty
  | c :: rest => listStartsWith needle (c :: rest) || listContainsSub needle rest

/-- Substring test used to state which indices an error message mentions. -/
def strContains (hay needle : String) : Bool := listContainsSub needle.data hay.data

/-- A string with no leading and no trailing JavaScript whitespace. -/
def IsJsTrimmed (s : String) : Prop :=
  s.data.dropWhile jsWhitespaceChar = s.data ∧
  s.data.reverse.dropWhile jsWhitespaceChar = s.data.reverse

/-- Two entries whose names are equal after case folding, capitalized first. -/
def dupItems : List JVal :=
  [.obj [("name", .str "Ann"), ("month", .num 1), ("day", .num 1)],
   .obj [("name", .str "ann"), ("month", .num 1), ("day", .num 2)]]

/-- Roster document holding dupItems. -/
def dupExample : JVal := .obj [("birthdays", .arr dupItems)]

/-- The same two entries in the opposite order. -/
def dupExampleSwapped : JVal :=
  .obj [("birthdays", .arr [
    .obj [("name", .str "ann"), ("month", .num 1), ("day", .num 2)],
    .obj [("name", .str "Ann"), ("month", .num 1), ("day", .num 1)]])]

/-- Roster whose single entry has a run of two internal spaces in the name. -/
def wsExample : JVal :=
  .obj [("birthdays", .arr [
    .obj [("name", .str "A  B"), ("month", .num 1), ("day", .num 1)]])]

/-- Legacy roster with one out-of-range but parseable date and one valid entry. -/
def outOfRangeLegacyExample : JVal :=
  .obj [("birthdays", .arr [
    .obj [("name", .str "A"), ("date", .str "13/45")],
    .obj [("name", .str "B"), ("date", .str "1/2")]])]

/-- Entries of a legacy roster mixing an unparseable date, a valid entry
and a non-object. -/
def mixedLegacyItems : List JVal :=
  [.obj [("name", .str "A"), ("date", .str "junk")],
   .obj [("name", .str "B"), ("date", .str "1/2")],
   .num 5]

/-- Legacy roster mixing an unparseable date, a valid entry and a non-object. -/
def mixedLegacyExample : JVal := .obj [("members", .arr mixedLegacyItems)]

/-- Entries of a legacy roster whose two entries migrate but collide on a
case-folded name. -/
def dupLegacyItems : List JVal :=
  [.obj [("name", .str "Ann"), ("date", .str "1/2")],
   .obj [("name", .str "ann"), ("date", .str "1/3")]]

/-- Legacy roster whose entries all migrate yet validation fails. -/
def dupLegacyExample : JVal := .obj [("members", .arr dupLegacyItems)]

/-- Per-entry outcome of the migrateFromV0 loop: none when the entry is
skipped (non-object or rejected by migrateLegacyBirthday). -/
def migrateEntryOption (x : JVal) : Option Birthday :=
  if !x.truthy || x.typeof != "object" then none
  else (migrateLegacyBirthday x).toOption

/-- The current-format document with an empty entries array. -/
def emptyCurrentExample : JVal := .obj [("birthdays", .arr ([] : List JVal))]

/-- Shorthand for a display-annotated entry without a Slack id. -/
def mkUB (nm : String) (m d du : Int) : UpcomingBirthday :=
  ⟨⟨nm, m, d, none⟩, du, getMonthName m, formatBirthdayDate m d⟩

/-- Twelve future entries forming eleven groups: the first two share a day. -/
def cutoffExample : List UpcomingBirthday :=
  [mkUB "P1" 1 1 1, mkUB "P2" 1 1 1, mkUB "Q2" 1 2 2, mkUB "Q3" 1 3 3, mkUB "Q4" 1 4 4,
   mkUB "Q5" 1 5 5, mkUB "Q6" 1 6 6, mkUB "Q7" 1 7 7, mkUB "Q8" 1 8 8, mkUB "Q9" 1 9 9,
   mkUB "Q10" 1 10 10, mkUB "Q11" 1 11 11]

/-- Small roster with a daysUntil tie resolved by name order. -/
def rosterExample : List Birthday :=
  [⟨"Bob", 1, 20, none⟩, ⟨"Ann", 1, 20, none⟩, ⟨"Cid", 1, 16, none⟩, ⟨"Far", 3, 1, none⟩]

/-- Store state holding a Warm, far-from-expired cache entry. -/
def warmKVExample : KVState :=
  { birthdayData := none,
    cacheHomeView := some ⟨.str "home view", 0, 100000000⟩ }

/-- A valid one-entry roster payload for the write path. -/
def writePayloadExample : JVal :=
  .obj [("birthdays", .arr [
    .obj [("name", .str "Ann"), ("month", .num 1), ("day", .num 1)]])]

/-- Arithmetic characterization of the leap-year test. -/
theorem isLeapYear_iff (y : Nat) :
    isLeapYear y = true ↔ ((y % 4 = 0 ∧ y % 100 ≠ 0) ∨ y % 400 = 0) := by
  simp [isLeapYear, Bool.or_eq_true, Bool.and_eq_true, beq_iff_eq, bne_iff_ne]

/-- Counting leap years is incremented exactly at leap years. -/
theorem leapYearsUpTo_succ (y : Nat) :
    leapYearsUpTo (y + 1) = leapYearsUpTo y + (if isLeapYear (y + 1) = true then 1 else 0) := by
  cases h : isLeapYear (y + 1)
  · have h2 : ¬ (((y+1) % 4 = 0 ∧ (y+1) % 100 ≠ 0) ∨ (y+1) % 400 = 0) := by
      rw [← isLeapYear_iff]; simp [h]
    unfold leapYearsUpTo
    simp only [h, Bool.false_eq_true, if_false]
    omega
  · have h2 := (isLeapYear_iff (y + 1)).1 h
    unfold leapYearsUpTo
    simp only [h, if_true]
    omega

/-- Year length in day numbers: the next New Year is 365 or 366 days later. -/
theorem daysBeforeYear_succ (y : Nat) (hy : 1 ≤ y) :
    daysBeforeYear (y + 1) = daysBeforeYear y + 365 + (if isLeapYear y = true then 1 else 0) := by
  have h := leapYearsUpTo_succ (y - 1)
  have h1 : y - 1 + 1 = y := by omega
  rw [h1] at h
  unfold daysBeforeYear
  simp only [Nat.add_sub_cancel]
  cases hl : isLeapYear y <;> simp only [hl] at h ⊢ <;> simp at h ⊢ <;> omega

/-- Upper bound: a valid date of year y has day number before the next New Year. -/
theorem dayNumber_lt_year_succ (y m d : Nat) (h : ValidCivil y m d) :
    dayNumber y m d < daysBeforeYear (y + 1) := by
  obtain ⟨hy, hm1, hm2, hd1, hd2⟩ := h
  rw [daysBeforeYear_succ y hy]
  unfold dayNumber daysBeforeMonth
  have hkey : cumDaysBeforeMonth m + (if 2 < m ∧ isLeapYear y = true then 1 else 0) + (d - 1)
      < 365 + (if isLeapYear y = true then 1 else 0) := by
    interval_cases m <;> cases hl : isLeapYear y <;>
      simp [cumDaysBeforeMonth, daysInMonth, hl] at hd2 ⊢ <;> omega
  omega

/-- Lower bound: a day number is at least the New Year of its year. -/
theorem daysBeforeYear_le_dayNumber (y m d : Nat) : daysBeforeYear y ≤ dayNumber y m d := by
  unfold dayNumber; omega

/-- Every month has at least 28 days. -/
theorem daysInMonth_pos (y m : Nat) : 28 ≤ daysInMonth y m := by
  unfold daysInMonth
  split
  · split <;> omega
  · split <;> omega

/-- Days-before-month advances by exactly the month length. -/
theorem daysBeforeMonth_succ (y m : Nat) (h1 : 1 ≤ m) (h2 : m ≤ 11) :
    daysBeforeMonth y (m + 1) = daysBeforeMonth y m + daysInMonth y m := by
  interval_cases m <;> cases hl : isLeapYear y <;>
    simp [daysBeforeMonth, cumDaysBeforeMonth, daysInMonth, hl]

/-- Days-before-month is monotone past the end of an earlier month. -/
theorem daysBeforeMonth_mono (y m k : Nat) (h1 : 1 ≤ m) (hlt : m < k) (h2 : k ≤ 12) :
    daysBeforeMonth y m + daysInMonth y m ≤ daysBeforeMonth y k := by
  induction k with
  | zero => omega
  | succ n ih =>
    rcases Nat.lt_or_ge m n with hmn | hmn
    · have := ih (by omega) (by omega)
      rw [daysBeforeMonth_succ y n (by omega) (by omega)]
      have := daysInMonth_pos y n
      omega
    · have hmeq : m = n := by omega
      subst hmeq
      rw [daysBeforeMonth_succ y m (by omega) (by omega)]

/-- Within one year, the day number determines month and day of a valid date. -/
theorem dayNumber_inj (y m d m2 d2 : Nat) (h : ValidCivil y m d) (h2 : ValidCivil y m2 d2)
    (he : dayNumber y m d = dayNumber y m2 d2) : m = m2 ∧ d = d2 := by
  obtain ⟨hy, hm1, hm2, hd1, hd2⟩ := h
  obtain ⟨hy2, hm21, hm22, hd21, hd22⟩ := h2
  unfold dayNumber at he
  have hmm : m = m2 := by
    rcases Nat.lt_trichotomy m m2 with hlt | heq | hgt
    · have := daysBeforeMonth_mono y m m2 hm1 hlt hm22
      omega
    · exact heq
    · have := daysBeforeMonth_mono y m2 m hm21 hgt hm2
      omega
  subst hmm
  exact ⟨rfl, by omega⟩

/-- Unpacking of a successful isValidDate check on natural inputs. -/
theorem isValidDate_elim (month day : Nat)
    (h : isValidDate (month : Int) (day : Int) = true) :
    1 ≤ month ∧ month ≤ 12 ∧ 1 ≤ day ∧
      (day ≤ daysInMonthTable.getD (month - 1) 0 ∨ (month = 2 ∧ day = 29)) := by
  unfold isValidDate at h
  split_ifs at h with hA hB hC
  · refine ⟨by omega, by omega, by omega, Or.inr ?_⟩
    omega
  · have hidx : (((month : Int) - 1).toNat) = month - 1 := by omega
    rw [hidx] at h
    refine ⟨by omega, by omega, by omega, Or.inl ?_⟩
    have h2 : (day : Int) ≤ ((daysInMonthTable.getD (month - 1) 0 : Nat) : Int) :=
      of_decide_eq_true h
    exact_mod_cast h2

/-- The Feb 29 substitution of a valid stored pair is a real date in any year. -/
theorem februarySubstitution_valid (y month day : Nat) (hy : 1 ≤ y)
    (h : isValidDate (month : Int) (day : Int) = true) :
    ValidCivil y (februarySubstitution y month day).1 (februarySubstitution y month day).2 := by
  obtain ⟨h1, h2, h3, h4⟩ := isValidDate_elim month day h
  unfold februarySubstitution
  split
  case isTrue hfeb =>
    refine ⟨hy, by omega, by omega, by omega, ?_⟩
    have hdim : daysInMonth y 2 = if isLeapYear y = true then 29 else 28 := by
      simp [daysInMonth]
    rw [hdim]
    split <;> omega
  case isFalse hfeb =>
    refine ⟨hy, h1, h2, h3, ?_⟩
    rcases h4 with h4 | ⟨hm2, hd29⟩
    · interval_cases month <;>
        simp [daysInMonthTable, daysInMonth, List.getD] at h4 ⊢ <;>
        first
          | omega
          | (cases hl : isLeapYear y <;> simp [hl] <;> omega)
    · have hleap : isLeapYear y = true := by
        by_contra hno
        exact hfeb ⟨hm2, hd29, hno⟩
      subst hm2; subst hd29
      simp [daysInMonth, hleap]

/-- Moving the candidate occurrence one year forward adds at most 366 days. -/
theorem februarySubstitution_year_gap (y month day : Nat) (hy : 1 ≤ y) :
    dayNumber (y + 1) (februarySubstitution (y + 1) month day).1
        (februarySubstitution (y + 1) month day).2
      ≤ dayNumber y (februarySubstitution y month day).1
          (februarySubstitution y month day).2 + 366 := by
  unfold dayNumber
  rw [daysBeforeYear_succ y hy]
  by_cases hfeb : month = 2 ∧ day = 29
  · obtain ⟨hm, hd⟩ := hfeb
    subst hm; subst hd
    unfold februarySubstitution
    cases hl : isLeapYear y <;> cases hl2 : isLeapYear (y + 1) <;>
      simp [hl, hl2, daysBeforeMonth, cumDaysBeforeMonth]
  · have hno1 : ¬ (month = 2 ∧ day = 29 ∧ ¬ (isLeapYear y = true)) := by
      intro hc; exact hfeb ⟨hc.1, hc.2.1⟩
    have hno2 : ¬ (month = 2 ∧ day = 29 ∧ ¬ (isLeapYear (y + 1) = true)) := by
      intro hc; exact hfeb ⟨hc.1, hc.2.1⟩
    unfold februarySubstitution
    rw [if_neg hno1, if_neg hno2]
    unfold daysBeforeMonth
    by_cases hm : 2 < month <;>
      cases hl : isLeapYear y <;> cases hl2 : isLeapYear (y + 1) <;>
        simp [hm, hl, hl2] <;> omega

/-- Claim C1: for every valid (month, day) pair and every reference date,
getDaysUntilBirthday returns an integer in the interval from 0 to 366, and it
returns 0 exactly when the stored pair, after the Feb 29 to Feb 28
substitution of a non-leap reference year, equals the calendar day of the
reference date.  The leap-year test is isLeapYear: divisible by 4 and (not
divisible by 100, or divisible by 400). -/
theorem getDaysUntilBirthday_range_zero_iff
    (month day fy fm fd : Nat)
    (hmd : isValidDate (month : Int) (day : Int) = true)
    (hfrom : ValidCivil fy fm fd) :
    0 ≤ getDaysUntilBirthday month day fy fm fd ∧
    getDaysUntilBirthday month day fy fm fd ≤ 366 ∧
    (getDaysUntilBirthday month day fy fm fd = 0 ↔
      februarySubstitution fy month day = (fm, fd)) := by
  have hy : 1 ≤ fy := hfrom.1
  have hv1 := februarySubstitution_valid fy month day hy hmd
  have hv2 := februarySubstitution_valid (fy + 1) month day (by omega) hmd
  have htodayub := dayNumber_lt_year_succ fy fm fd hfrom
  have htodaylb := daysBeforeYear_le_dayNumber fy fm fd
  unfold getDaysUntilBirthday
  split_ifs with hlt
  · -- the current-year candidate already passed: use next year
    have hgap := februarySubstitution_year_gap fy month day hy
    have hge : daysBeforeYear (fy + 1)
        ≤ dayNumber (fy + 1) (februarySubstitution (fy + 1) month day).1
            (februarySubstitution (fy + 1) month day).2 :=
      daysBeforeYear_le_dayNumber _ _ _
    refine ⟨by omega, by omega, ?_⟩
    constructor
    · intro h0
      exfalso
      omega
    · intro hEq
      exfalso
      have hfst : (februarySubstitution fy month day).1 = fm := by rw [hEq]
      have hsnd : (februarySubstitution fy month day).2 = fd := by rw [hEq]
      rw [hfst, hsnd] at hlt
      omega
  · -- the current-year candidate is today or later
    have hub := dayNumber_lt_year_succ fy (februarySubstitution fy month day).1
      (februarySubstitution fy month day).2 hv1
    have hyb : daysBeforeYear (fy + 1) ≤ daysBeforeYear fy + 366 := by
      rw [daysBeforeYear_succ fy hy]; split <;> omega
    refine ⟨by omega, by omega, ?_⟩
    constructor
    · intro h0
      have heqn : dayNumber fy (februarySubstitution fy month day).1
          (februarySubstitution fy month day).2 = dayNumber fy fm fd := by omega
      have := dayNumber_inj fy (februarySubstitution fy month day).1
        (februarySubstitution fy month day).2 fm fd hv1 hfrom heqn
      have hx : februarySubstitution fy month day
          = ((februarySubstitution fy month day).1, (februarySubstitution fy month day).2) := rfl
      rw [hx, this.1, this.2]
    · intro hEq
      have hfst : (februarySubstitution fy month day).1 = fm := by rw [hEq]
      have hsnd : (februarySubstitution fy month day).2 = fd := by rw [hEq]
      rw [hfst, hsnd]
      omega

/-- Witness for claim C1 at a concrete input: (month, day) = (1, 10) from
reference date 2024-01-15. -/
theorem getDaysUntilBirthday_range_zero_iff_witness :
    0 ≤ getDaysUntilBirthday 1 10 2024 1 15 ∧
    getDaysUntilBirthday 1 10 2024 1 15 ≤ 366 ∧
    (getDaysUntilBirthday 1 10 2024 1 15 = 0 ↔
      februarySubstitution 2024 1 10 = (1, 15)) :=
  getDaysUntilBirthday_range_zero_iff 1 10 2024 1 15 (by decide) (by decide)

/-- Claim C5: with reference date 2024-01-15 (a leap year) an entry
(month 1, day 10) yields 361 days, wrapping to 2025-01-10; with reference
date 2023-01-15 (a non-leap year) an entry (month 2, day 29) yields 44
days, resolving to 2023-02-28. -/
theorem getDaysUntilBirthday_reference_scenarios :
    isLeapYear 2024 = true ∧ isLeapYear 2023 = false ∧
    getDaysUntilBirthday 1 10 2024 1 15 = 361 ∧
    getDaysUntilBirthday 2 29 2023 1 15 = 44 := by
  refine ⟨by decide, by decide, by decide, by decide⟩

/-- Claim C2: every successful completion of storeBirthdayData leaves the
cache slot empty - the cache key is deleted as part of the write - so a
subsequent cache read returns null at any time, regardless of the previous
cache state. -/
theorem storeBirthdayData_invalidates_cache (kv : KVState) (data : JVal)
    (kv2 : KVState) (h : storeBirthdayData kv data = .ok kv2) :
    kv2.cacheHomeView = none ∧ ∀ now : Int, getCachedHomeView kv2 now = none := by
  cases hv : validateBirthdayData data with
  | error e => simp [storeBirthdayData, hv] at h
  | ok vd =>
    cases hl : validateBirthdayDataLimits vd with
    | error e => simp [storeBirthdayData, hv, hl] at h
    | ok u =>
      simp only [storeBirthdayData, hv, hl, Except.ok.injEq] at h
      subst h
      exact ⟨rfl, fun _ => rfl⟩

/-- Witness for claim C2: a write over a Warm, unexpired entry leaves an
Empty slot whose read gives null. -/
theorem storeBirthdayData_invalidates_cache_witness :
    getCachedHomeView
      { birthdayData := some ⟨[⟨"Ann", 1, 1, none⟩]⟩, cacheHomeView := none } 12345
      = none :=
  (storeBirthdayData_invalidates_cache warmKVExample writePayloadExample
    { birthdayData := some ⟨[⟨"Ann", 1, 1, none⟩]⟩, cacheHomeView := none }
    (by rfl)).2 12345

/-- Claim C9: a legacy roster whose first entry parses to the out-of-range
pair (13, 45) migrates entry-by-entry without a skip warning, but the
post-migration validation of the assembled roster fails, so the whole
migration fails with no migrated data. -/
theorem migration_out_of_range_entry_fails_whole :
    (migrateLegacyBirthday (.obj [("name", .str "A"), ("date", .str "13/45")])
      = .ok ⟨"A", 13, 45, none⟩) ∧
    (migrateLegacyBirthday (.obj [("name", .str "B"), ("date", .str "1/2")])
      = .ok ⟨"B", 1, 2, none⟩) ∧
    (migrateToLatestFormat outOfRangeLegacyExample).success = false ∧
    (migrateToLatestFormat outOfRangeLegacyExample).migratedData = none ∧
    (migrateToLatestFormat outOfRangeLegacyExample).warnings = [] ∧
    (migrateToLatestFormat outOfRangeLegacyExample).errors
      = ["V0 migration failed: Birthday entry 0: Month must be between 1 and 12"] := by
  refine ⟨by decide, by decide, by decide, by decide, by decide, by decide⟩

/-- Claim C10: the current-format document with an empty entries array is
undetectable (structural sniffing needs a non-empty first entry), its
migration fails with the no-valid-birthdays error, and the migration-based
read path therefore throws for it, while a missing storage key yields the
empty roster without error. -/
theorem empty_current_roster_read_fails :
    detectDataVersion emptyCurrentExample = none ∧
    (migrateToLatestFormat emptyCurrentExample).success = false ∧
    "No valid birthdays could be migrated"
      ∈ (migrateToLatestFormat emptyCurrentExample).errors ∧
    getBirthdayData (some emptyCurrentExample)
      = .error "Data migration failed: No valid birthdays could be migrated" ∧
    getBirthdayData none = .ok ⟨[]⟩ := by
  refine ⟨by decide, by decide, by decide, by decide, by decide⟩

/-- Dropping a satisfying run is idempotent. -/
theorem dropWhile_idem {α : Type} (p : α → Bool) (l : List α) :
    (l.dropWhile p).dropWhile p = l.dropWhile p := by
  induction l with
  | nil => rfl
  | cons a t ih =>
    by_cases h : p a
    · rw [List.dropWhile_cons, if_pos h]
      exact ih
    · rw [List.dropWhile_cons, if_neg h, List.dropWhile_cons, if_neg h]

/-- Dropping a satisfying run never lengthens a list. -/
theorem dropWhile_length_le {α : Type} (p : α → Bool) (l : List α) :
    (l.dropWhile p).length ≤ l.length := by
  induction l with
  | nil => simp
  | cons a t ih =>
    by_cases h : p a
    · rw [List.dropWhile_cons, if_pos h, List.length_cons]
      omega
    · rw [List.dropWhile_cons, if_neg h]

/-- A prefix of a list with no leading run has no leading run. -/
theorem prefix_dropWhile_eq {α : Type} (p : α → Bool) (l1 l2 : List α)
    (hpre : l1 <+: l2) (h : l2.dropWhile p = l2) : l1.dropWhile p = l1 := by
  cases l1 with
  | nil => rfl
  | cons a t =>
    obtain ⟨rest, hrest⟩ := hpre
    rw [← hrest] at h
    by_cases hpa : p a
    · exfalso
      rw [List.cons_append, List.dropWhile_cons, if_pos hpa] at h
      have h1 := dropWhile_length_le p (t ++ rest)
      have h2 := congrArg List.length h
      rw [List.length_cons] at h2
      omega
    · rw [List.dropWhile_cons, if_neg hpa]

/-- The output of jsTrim carries no surrounding whitespace. -/
theorem jsTrim_trimmed (s : String) : IsJsTrimmed (jsTrim s) := by
  unfold IsJsTrimmed jsTrim jsTrimList
  constructor
  · have hNdrop : (s.data.dropWhile jsWhitespaceChar).dropWhile jsWhitespaceChar
        = s.data.dropWhile jsWhitespaceChar := dropWhile_idem _ _
    have hsuff :
        (s.data.dropWhile jsWhitespaceChar).reverse.dropWhile jsWhitespaceChar
          <:+ (s.data.dropWhile jsWhitespaceChar).reverse :=
      List.dropWhile_suffix _
    have hpre :
        ((s.data.dropWhile jsWhitespaceChar).reverse.dropWhile jsWhitespaceChar).reverse
          <+: s.data.dropWhile jsWhitespaceChar := by
      have h2 := List.reverse_prefix.2 hsuff
      simpa using h2
    exact prefix_dropWhile_eq _ _ _ hpre hNdrop
  · simp only [List.reverse_reverse]
    exact dropWhile_idem _ _

set_option maxHeartbeats 1000000 in
/-- Name facts guaranteed by a successful validateBirthdayEntry: non-empty,
at most 100 characters, and trimmed. -/
theorem validateBirthdayEntry_ok_name (v : JVal) (b : Birthday)
    (h : validateBirthdayEntry v = .ok b) :
    b.name ≠ "" ∧ b.name.length ≤ 100 ∧ IsJsTrimmed b.name := by
  unfold validateBirthdayEntry at h
  cases h0 : (!v.truthy || v.typeof != "object") with
  | true => rw [h0, if_pos rfl] at h; cases h
  | false =>
    rw [h0, if_neg Bool.false_ne_true] at h
    cases hf : v.getField "name" <;> simp only [hf] at h
    · cases h
    · cases h
    · cases h
    · cases h
    · rename_i rawName
      cases h1 : (rawName == "") with
      | true => rw [h1, if_pos rfl] at h; cases h
      | false =>
        rw [h1, if_neg Bool.false_ne_true] at h
        cases h2 : ((jsTrim rawName).length == 0) with
        | true => rw [h2, if_pos rfl] at h; cases h
        | false =>
          rw [h2, if_neg Bool.false_ne_true] at h
          by_cases h3 : 100 < (jsTrim rawName).length
          · rw [if_pos h3] at h; cases h
          · rw [if_neg h3] at h
            have hgoal : jsTrim rawName ≠ "" ∧ (jsTrim rawName).length ≤ 100 ∧
                IsJsTrimmed (jsTrim rawName) := by
              refine ⟨?_, by omega, jsTrim_trimmed _⟩
              intro heq
              rw [heq] at h2
              simp at h2
            cases hm : v.getField "month" <;> simp only [hm] at h
            · cases h
            · cases h
            · cases h
            · rename_i qm
              cases h4 : (qm == 0) with
              | true => rw [h4, if_pos rfl] at h; cases h
              | false =>
                rw [h4, if_neg Bool.false_ne_true] at h
                cases h5 : (decide (qm.floor < 1) || decide (12 < qm.floor)) with
                | true => rw [h5, if_pos rfl] at h; cases h
                | false =>
                  rw [h5, if_neg Bool.false_ne_true] at h
                  cases hd : v.getField "day" <;> simp only [hd] at h
                  · cases h
                  · cases h
                  · cases h
                  · rename_i qd
                    cases h6 : (qd == 0) with
                    | true => rw [h6, if_pos rfl] at h; cases h
                    | false =>
                      rw [h6, if_neg Bool.false_ne_true] at h
                      cases h7 : (decide (qd.floor < 1) || decide (31 < qd.floor)) with
                      | true => rw [h7, if_pos rfl] at h; cases h
                      | false =>
                        rw [h7, if_neg Bool.false_ne_true] at h
                        cases h8 : (!isValidDate qm.floor qd.floor) with
                        | true => rw [h8, if_pos rfl] at h; cases h
                        | false =>
                          rw [h8, if_neg Bool.false_ne_true] at h
                          cases hs : v.getField "slackUserId" <;> simp only [hs] at h
                          · cases h; exact hgoal
                          · cases h
                          · cases h
                          · cases h
                          · rename_i sid
                            cases h9 : (jsTrim sid == "") with
                            | true => rw [h9, if_pos rfl] at h; cases h; exact hgoal
                            | false =>
                              rw [h9, if_neg Bool.false_ne_true] at h
                              cases h10 : (!slackUserIdPattern (jsTrim sid)) with
                              | true => rw [h10, if_pos rfl] at h; cases h
                              | false =>
                                rw [h10, if_neg Bool.false_ne_true] at h
                                cases h
                                exact hgoal
                          · cases h
                          · cases h
                  · cases h
                  · cases h
                  · cases h
            · cases h
            · cases h
            · cases h
    · cases h
    · cases h

/-- Every entry of a successful validateEntriesLoop run either came in
through the accumulator or individually validates. -/
theorem validateEntriesLoop_ok_mem (items : List JVal) :
    ∀ (i : Nat) (seen : List String) (acc bs : List Birthday),
      validateEntriesLoop items i seen acc = .ok bs →
      ∀ b ∈ bs, b ∈ acc ∨ ∃ x ∈ items, validateBirthdayEntry x = .ok b := by
  induction items with
  | nil =>
    intro i seen acc bs h b hb
    simp only [validateEntriesLoop, Except.ok.injEq] at h
    subst h
    exact Or.inl (List.mem_reverse.1 hb)
  | cons x rest ih =>
    intro i seen acc bs h b hb
    simp only [validateEntriesLoop] at h
    cases hv : validateBirthdayEntry x with
    | error e => simp [hv] at h
    | ok bx =>
      simp only [hv] at h
      split at h
      · cases h
      · rcases ih (i + 1) (jsToLower bx.name :: seen) (bx :: acc) bs h b hb with
          hacc | ⟨x2, hx2, hvx2⟩
        · rcases List.mem_cons.1 hacc with hbx | hacc2
          · exact Or.inr ⟨x, List.mem_cons_self x rest, by rw [hbx]; exact hv⟩
          · exact Or.inl hacc2
        · exact Or.inr ⟨x2, List.mem_cons_of_mem x hx2, hvx2⟩

/-- Claim C8 (amended): every entry of a roster accepted by
validateBirthdayData has a non-empty name of at most 100 characters,
trimmed of surrounding whitespace.  Internal whitespace runs are not
collapsed by validation (that is done only by sanitizeBirthdayInput); see
the counterexample theorem. -/
theorem validateBirthdayData_name_invariants (v : JVal) (bd : BirthdayData)
    (h : validateBirthdayData v = .ok bd) :
    ∀ b ∈ bd.birthdays, b.name ≠ "" ∧ b.name.length ≤ 100 ∧ IsJsTrimmed b.name := by
  intro b hb
  unfold validateBirthdayData at h
  split at h
  · cases h
  · split at h
    all_goals try cases h
    rename_i items harr
    cases hl : validateEntriesLoop items 0 [] [] with
    | error e => simp only [hl] at h; cases h
    | ok bs =>
      simp only [hl] at h
      cases h
      rcases validateEntriesLoop_ok_mem items 0 [] [] bs hl b hb with hacc | ⟨x, _, hvx⟩
      · cases hacc
      · exact validateBirthdayEntry_ok_name x b hvx

/-- Witness for claim C8 at the concrete accepted roster wsExample. -/
theorem validateBirthdayData_name_invariants_witness :
    (Birthday.mk "A  B" 1 1 none).name ≠ "" ∧
    (Birthday.mk "A  B" 1 1 none).name.length ≤ 100 ∧
    IsJsTrimmed (Birthday.mk "A  B" 1 1 none).name :=
  validateBirthdayData_name_invariants wsExample ⟨[⟨"A  B", 1, 1, none⟩]⟩ (by rfl)
    ⟨"A  B", 1, 1, none⟩ (by simp)

/-- Counterexample to claim C8 as stated: the roster wsExample passes
validation with the name kept as it came in, internal double space and
all; the whitespace-collapsing transform (used only by
sanitizeBirthdayInput) would have changed it. -/
theorem validateBirthdayData_whitespace_not_collapsed :
    validateBirthdayData wsExample = .ok ⟨[⟨"A  B", 1, 1, none⟩]⟩ ∧
    collapseWs "A  B" = "A B" ∧ ("A  B" : String) ≠ "A B" := by
  refine ⟨by rfl, by rfl, by decide⟩

/-- After a successful validateEntriesLoop run, no entry of the item list
collides with the incoming seen set, and no two entries have names that
are equal after case folding. -/
theorem validateEntriesLoop_ok_distinct (items : List JVal) :
    ∀ (i : Nat) (seen : List String) (acc bs : List Birthday),
      validateEntriesLoop items i seen acc = .ok bs →
      (∀ l, l < items.length → ∀ b2,
          validateBirthdayEntry (items.getD l .undefinedV) = .ok b2 →
          seen.contains (jsToLower b2.name) = false) ∧
      (∀ k l, k < l → l < items.length →
        ∀ b b2, validateBirthdayEntry (items.getD k .undefinedV) = .ok b →
          validateBirthdayEntry (items.getD l .undefinedV) = .ok b2 →
          jsToLower b.name ≠ jsToLower b2.name) := by
  induction items with
  | nil =>
    intro i seen acc bs h
    exact ⟨fun l hl => absurd hl (by simp), fun k l hkl hl => absurd hl (by simp)⟩
  | cons x rest ih =>
    intro i seen acc bs h
    simp only [validateEntriesLoop] at h
    cases hv : validateBirthdayEntry x with
    | error e => simp [hv] at h
    | ok bx =>
      simp only [hv] at h
      split at h
      · cases h
      · rename_i hnotin
        obtain ⟨ihA, ihB⟩ := ih (i + 1) (jsToLower bx.name :: seen) (bx :: acc) bs h
        have hcontains : seen.contains (jsToLower bx.name) = false := by
          simpa using hnotin
        constructor
        · intro l hl b2 hb2
          cases l with
          | zero =>
            simp only [List.getD_cons_zero] at hb2
            rw [hv] at hb2
            cases hb2
            exact hcontains
          | succ l2 =>
            have hA := ihA l2 (by simpa using hl) b2 (by simpa using hb2)
            simp only [List.contains_cons] at hA
            simp at hA
            simp [hA.2]
        · intro k l hkl hl b b2 hbk hbl
          cases k with
          | zero =>
            cases l with
            | zero => omega
            | succ l2 =>
              simp only [List.getD_cons_zero] at hbk
              rw [hv] at hbk
              cases hbk
              have hA := ihA l2 (by simpa using hl) b2 (by simpa using hbl)
              intro heq
              rw [← heq] at hA
              simp [List.contains_cons] at hA
          | succ k2 =>
            cases l with
            | zero => omega
            | succ l2 =>
              exact ihB k2 l2 (by omega) (by simpa using hl) b b2
                (by simpa using hbk) (by simpa using hbl)

/-- Claim C3 (amended, general part): whenever two entries of the payload
both individually validate and their names agree after case folding,
validateBirthdayData fails, whichever order the two entries appear in. -/
theorem validateBirthdayData_duplicate_fails (items : List JVal) (i j : Nat)
    (hij : i < j) (hj : j < items.length) (b1 b2 : Birthday)
    (h1 : validateBirthdayEntry (items.getD i .undefinedV) = .ok b1)
    (h2 : validateBirthdayEntry (items.getD j .undefinedV) = .ok b2)
    (hname : jsToLower b1.name = jsToLower b2.name) :
    ∃ e, validateBirthdayData (.obj [("birthdays", .arr items)]) = .error e := by
  cases hres : validateBirthdayData (.obj [("birthdays", .arr items)]) with
  | error e => exact ⟨e, rfl⟩
  | ok bd =>
    exfalso
    unfold validateBirthdayData at hres
    rw [if_neg (by simp [JVal.truthy, JVal.typeof])] at hres
    have hfield : (JVal.obj [("birthdays", .arr items)]).getField "birthdays"
        = .arr items := by rfl
    rw [hfield] at hres
    cases hl : validateEntriesLoop items 0 [] [] with
    | error e => simp only [hl] at hres; cases hres
    | ok bs =>
      exact (validateEntriesLoop_ok_distinct items 0 [] [] bs hl).2
        i j hij hj b1 b2 h1 h2 hname

/-- Witness for claim C3 at the concrete duplicate roster dupItems. -/
theorem validateBirthdayData_duplicate_fails_witness :
    ∃ e, validateBirthdayData (.obj [("birthdays", .arr dupItems)]) = .error e :=
  validateBirthdayData_duplicate_fails dupItems 0 1 (by decide) (by decide)
    ⟨"Ann", 1, 1, none⟩ ⟨"ann", 1, 2, none⟩ (by rfl) (by rfl) (by rfl)

/-- Counterexample to claim C3 as stated: in both orders the duplicate
error is raised while validating the later entry and its message and field
mention only index 1 - the digit 0 appears nowhere - so the error does not
name both conflicting indices. -/
theorem validateBirthdayData_duplicate_error_shape :
    validateBirthdayData dupExample =
      .error ⟨"Birthday entry 1: Duplicate name found: ann",
              some "birthdays[1].birthdays[1].name"⟩ ∧
    validateBirthdayData dupExampleSwapped =
      .error ⟨"Birthday entry 1: Duplicate name found: Ann",
              some "birthdays[1].birthdays[1].name"⟩ ∧
    strContains "Birthday entry 1: Duplicate name found: ann" "0" = false ∧
    strContains "birthdays[1].birthdays[1].name" "0" = false := by
  refine ⟨by rfl, by rfl, by decide, by decide⟩

/-- Membership in an insertion step. -/
theorem mem_sortInsert {α : Type} (cmp : α → α → Int) (x : α) (l : List α) (u : α) :
    u ∈ sortInsert cmp x l ↔ u = x ∨ u ∈ l := by
  induction l with
  | nil => simp [sortInsert]
  | cons y ys ih =>
    unfold sortInsert
    by_cases h : cmp x y < 0
    · rw [if_pos h]
      simp [List.mem_cons]
    · rw [if_neg h]
      simp only [List.mem_cons, ih]
      tauto

/-- Elements of the stable sort come from the input list. -/
theorem mem_jsSortBy_aux {α : Type} (cmp : α → α → Int) (u : α) (l : List α) :
    ∀ acc, u ∈ l.foldl (fun acc x => sortInsert cmp x acc) acc → u ∈ acc ∨ u ∈ l := by
  induction l with
  | nil => intro acc h; exact Or.inl h
  | cons x t ih =>
    intro acc h
    rcases ih (sortInsert cmp x acc) h with hacc | ht
    · rcases (mem_sortInsert cmp x acc u).1 hacc with rfl | hacc2
      · exact Or.inr (List.mem_cons_self _ _)
      · exact Or.inl hacc2
    · exact Or.inr (List.mem_cons_of_mem _ ht)

/-- Elements of the stable sort come from the input list. -/
theorem mem_jsSortBy {α : Type} (cmp : α → α → Int) (l : List α) (u : α)
    (h : u ∈ jsSortBy cmp l) : u ∈ l := by
  rcases mem_jsSortBy_aux cmp u l [] h with hacc | hl
  · cases hacc
  · exact hl

/-- One insertion preserves sortedness under a consistent comparator. -/
theorem sortInsert_pairwise {α : Type} (cmp : α → α → Int)
    (hflip : ∀ a b, ¬ cmp a b < 0 → cmp b a ≤ 0)
    (htrans : ∀ a b c, cmp a b ≤ 0 → cmp b c ≤ 0 → cmp a c ≤ 0)
    (x : α) (l : List α) (hl : l.Pairwise (fun a b => cmp a b ≤ 0)) :
    (sortInsert cmp x l).Pairwise (fun a b => cmp a b ≤ 0) := by
  induction l with
  | nil => simp [sortInsert]
  | cons y ys ih =>
    rw [List.pairwise_cons] at hl
    unfold sortInsert
    by_cases h : cmp x y < 0
    · rw [if_pos h]
      refine List.Pairwise.cons ?_ (List.Pairwise.cons hl.1 hl.2)
      intro z hz
      rcases List.mem_cons.1 hz with hzy | hz2
      · rw [hzy]
        exact Int.le_of_lt h
      · exact htrans x y z (Int.le_of_lt h) (hl.1 z hz2)
    · rw [if_neg h]
      refine List.Pairwise.cons ?_ (ih hl.2)
      intro z hz
      rcases (mem_sortInsert cmp x ys z).1 hz with hzx | hz2
      · rw [hzx]
        exact hflip x y h
      · exact hl.1 z hz2

/-- The stable sort of any list is sorted under a consistent comparator. -/
theorem jsSortBy_pairwise_aux {α : Type} (cmp : α → α → Int)
    (hflip : ∀ a b, ¬ cmp a b < 0 → cmp b a ≤ 0)
    (htrans : ∀ a b c, cmp a b ≤ 0 → cmp b c ≤ 0 → cmp a c ≤ 0)
    (l : List α) :
    ∀ acc, acc.Pairwise (fun a b => cmp a b ≤ 0) →
      (l.foldl (fun acc x => sortInsert cmp x acc) acc).Pairwise
        (fun a b => cmp a b ≤ 0) := by
  induction l with
  | nil => intro acc hacc; exact hacc
  | cons x t ih =>
    intro acc hacc
    exact ih (sortInsert cmp x acc) (sortInsert_pairwise cmp hflip htrans x acc hacc)

/-- The stable sort of any list is sorted under a consistent comparator. -/
theorem jsSortBy_pairwise {α : Type} (cmp : α → α → Int)
    (hflip : ∀ a b, ¬ cmp a b < 0 → cmp b a ≤ 0)
    (htrans : ∀ a b c, cmp a b ≤ 0 → cmp b c ≤ 0 → cmp a c ≤ 0)
    (l : List α) :
    (jsSortBy cmp l).Pairwise (fun a b => cmp a b ≤ 0) :=
  jsSortBy_pairwise_aux cmp hflip htrans l [] List.Pairwise.nil

/-- The comparison changes sign when its arguments swap. -/
theorem strCmpInt_flip (a : List Char) : ∀ b, strCmpInt a b = - strCmpInt b a := by
  induction a with
  | nil => intro b; cases b <;> simp [strCmpInt]
  | cons x as ih =>
    intro b
    cases b with
    | nil => simp [strCmpInt]
    | cons y bs =>
      simp only [strCmpInt]
      by_cases h1 : x.toNat < y.toNat
      · rw [if_pos h1, if_neg (show ¬ y.toNat < x.toNat by omega), if_pos h1]
        try decide
      · by_cases h2 : y.toNat < x.toNat
        · rw [if_neg h1, if_pos h2, if_pos h2]
          try decide
        · rw [if_neg h1, if_neg h2, if_neg h2, if_neg h1, ih bs]

/-- Nonpositive comparisons compose transitively. -/
theorem strCmpInt_trans (a : List Char) :
    ∀ b c, strCmpInt a b ≤ 0 → strCmpInt b c ≤ 0 → strCmpInt a c ≤ 0 := by
  induction a with
  | nil =>
    intro b c h1 h2
    cases c with
    | nil => simp [strCmpInt]
    | cons z cs => simp [strCmpInt]
  | cons x as ih =>
    intro b c h1 h2
    cases b with
    | nil => simp [strCmpInt] at h1
    | cons y bs =>
      cases c with
      | nil => simp [strCmpInt] at h2
      | cons z cs =>
        simp only [strCmpInt] at h1 h2 ⊢
        by_cases hxy : x.toNat < y.toNat
        · by_cases hyz : y.toNat < z.toNat
          · rw [if_pos (show x.toNat < z.toNat by omega)]
            omega
          · by_cases hzy : z.toNat < y.toNat
            · rw [if_neg hyz, if_pos hzy] at h2
              omega
            · rw [if_pos (show x.toNat < z.toNat by omega)]
              omega
        · by_cases hyx : y.toNat < x.toNat
          · rw [if_neg hxy, if_pos hyx] at h1
            omega
          · rw [if_neg hxy, if_neg hyx] at h1
            by_cases hyz : y.toNat < z.toNat
            · rw [if_pos (show x.toNat < z.toNat by omega)]
              omega
            · by_cases hzy : z.toNat < y.toNat
              · rw [if_neg hyz, if_pos hzy] at h2
                omega
              · rw [if_neg hyz, if_neg hzy] at h2
                rw [if_neg (show ¬ x.toNat < z.toNat by omega),
                    if_neg (show ¬ z.toNat < x.toNat by omega)]
                exact ih bs cs h1 h2

/-- The name comparison changes sign when its arguments swap. -/
theorem localeCompareInt_flip (a b : String) :
    localeCompareInt a b = - localeCompareInt b a := by
  unfold localeCompareInt
  exact strCmpInt_flip a.data b.data

/-- Nonpositive name comparisons compose transitively. -/
theorem localeCompareInt_trans (a b c : String)
    (h1 : localeCompareInt a b ≤ 0) (h2 : localeCompareInt b c ≤ 0) :
    localeCompareInt a c ≤ 0 := by
  unfold localeCompareInt at h1 h2 ⊢
  exact strCmpInt_trans a.data b.data c.data h1 h2

/-- The upcoming comparator changes sign when its arguments swap. -/
theorem upcomingCompare_flip (a b : UpcomingBirthday) :
    ¬ upcomingCompare a b < 0 → upcomingCompare b a ≤ 0 := by
  intro h
  unfold upcomingCompare at h ⊢
  by_cases hdu : a.daysUntil = b.daysUntil
  · rw [if_neg (by simp [hdu])] at h
    rw [if_neg (by simp [hdu])]
    rw [localeCompareInt_flip b.name a.name]
    omega
  · rw [if_pos (by simp [bne_iff_ne, hdu])] at h
    rw [if_pos (by simp only [bne_iff_ne, ne_eq]; omega)]
    omega

/-- The upcoming comparator is transitive on nonpositive comparisons. -/
theorem upcomingCompare_trans (a b c : UpcomingBirthday)
    (h1 : upcomingCompare a b ≤ 0) (h2 : upcomingCompare b c ≤ 0) :
    upcomingCompare a c ≤ 0 := by
  unfold upcomingCompare at h1 h2 ⊢
  by_cases hab : a.daysUntil = b.daysUntil
  · by_cases hbc : b.daysUntil = c.daysUntil
    · rw [if_neg (by simp [hab])] at h1
      rw [if_neg (by simp [hbc])] at h2
      rw [if_neg (by simp [hab, hbc])]
      exact localeCompareInt_trans a.name b.name c.name h1 h2
    · rw [if_pos (by simp only [bne_iff_ne, ne_eq]; omega)] at h2
      rw [if_pos (by simp only [bne_iff_ne, ne_eq]; omega)]
      omega
  · by_cases hbc : b.daysUntil = c.daysUntil
    · rw [if_pos (by simp only [bne_iff_ne, ne_eq]; omega)] at h1
      rw [if_pos (by simp only [bne_iff_ne, ne_eq]; omega)]
      omega
    · rw [if_pos (by simp only [bne_iff_ne, ne_eq]; omega)] at h1
      rw [if_pos (by simp only [bne_iff_ne, ne_eq]; omega)] at h2
      rw [if_pos (by simp only [bne_iff_ne, ne_eq]; omega)]
      omega

/-- Claim C6: every element of calculateUpcomingBirthdays has daysUntil at
most the horizon, and the returned list is sorted ascending by daysUntil
with ties ordered by name comparison. -/
theorem calculateUpcomingBirthdays_spec (birthdays : List Birthday) (days : Int)
    (fy fm fd : Nat) :
    (∀ u ∈ calculateUpcomingBirthdays birthdays days fy fm fd, u.daysUntil ≤ days) ∧
    (calculateUpcomingBirthdays birthdays days fy fm fd).Pairwise
      (fun a b => a.daysUntil < b.daysUntil ∨
        (a.daysUntil = b.daysUntil ∧ localeCompareInt a.name b.name ≤ 0)) := by
  constructor
  · intro u hu
    have hmem := mem_jsSortBy upcomingCompare _ u hu
    rcases List.mem_filterMap.1 hmem with ⟨b, _, hb⟩
    by_cases hle :
        getDaysUntilBirthday b.month.toNat b.day.toNat fy fm fd ≤ days
    · rw [if_pos hle] at hb
      cases hb
      exact hle
    · rw [if_neg hle] at hb
      cases hb
  · have hp := jsSortBy_pairwise upcomingCompare upcomingCompare_flip
      upcomingCompare_trans
      (birthdays.filterMap (fun b =>
        let daysUntil := getDaysUntilBirthday b.month.toNat b.day.toNat fy fm fd
        if daysUntil ≤ days then some (mkUpcoming b daysUntil) else none))
    refine List.Pairwise.imp ?_ hp
    intro a b hab
    unfold upcomingCompare at hab
    by_cases hdu : a.daysUntil = b.daysUntil
    · rw [if_neg (by simp [hdu])] at hab
      exact Or.inr ⟨hdu, hab⟩
    · rw [if_pos (by simp [hdu])] at hab
      exact Or.inl (by omega)

/-- Witness for claim C6 on a concrete roster with a tie: the Cid element
is in the output and respects the horizon bound. -/
theorem calculateUpcomingBirthdays_spec_witness :
    (UpcomingBirthday.mk ⟨"Cid", 1, 16, none⟩ 1 "January" "January 16").daysUntil
      ≤ 30 :=
  (calculateUpcomingBirthdays_spec rosterExample 30 2024 1 15).1
    (UpcomingBirthday.mk ⟨"Cid", 1, 16, none⟩ 1 "January" "January 16") (by decide)

/-- The migrateFromV0 entry loop migrates exactly the entries accepted by
migrateLegacyBirthday, in order, and emits one warning per skipped entry. -/
theorem migrateEntriesLoop_spec (items : List JVal) :
    ∀ i, (migrateEntriesLoop items i).1 = items.filterMap migrateEntryOption ∧
      (migrateEntriesLoop items i).2.length + (migrateEntriesLoop items i).1.length
        = items.length := by
  induction items with
  | nil => intro i; simp [migrateEntriesLoop]
  | cons x rest ih =>
    intro i
    obtain ⟨ih1, ih2⟩ := ih (i + 1)
    simp only [migrateEntriesLoop, List.filterMap_cons]
    by_cases hc : (!x.truthy || x.typeof != "object") = true
    · rw [if_pos hc]
      have hopt : migrateEntryOption x = none := by
        unfold migrateEntryOption
        rw [if_pos hc]
      rw [hopt]
      refine ⟨ih1, ?_⟩
      simp only [List.length_cons]
      omega
    · rw [if_neg hc]
      have hopt : migrateEntryOption x = (migrateLegacyBirthday x).toOption := by
        unfold migrateEntryOption
        rw [if_neg hc]
      rw [hopt]
      cases hm : migrateLegacyBirthday x with
      | error e =>
        simp only [Except.toOption]
        refine ⟨ih1, ?_⟩
        simp only [List.length_cons]
        omega
      | ok b =>
        simp only [Except.toOption]
        refine ⟨by rw [ih1], ?_⟩
        simp only [List.length_cons]
        omega

/-- Claim C4 (amended): for a legacy roster, unmigratable entries are
skipped one warning each while the rest migrate in order; the whole
migration fails when zero entries migrated, and with at least one migrated
entry it succeeds exactly when post-migration validation of the assembled
roster passes (so it can also fail with migrated entries, for example on an
out-of-range date or duplicate names). -/
theorem migrateFromV0_skip_and_failure (v : JVal) (items : List JVal)
    (hv : v.truthy = true) (hobj : v.typeof = "object")
    (harr : jsOr (v.getField "members") (v.getField "birthdays") = .arr items) :
    (migrateEntriesLoop items 0).1 = items.filterMap migrateEntryOption ∧
    (migrateEntriesLoop items 0).2.length + (migrateEntriesLoop items 0).1.length
      = items.length ∧
    ((migrateEntriesLoop items 0).1 = [] →
      (migrateFromV0 v).success = false ∧
      "No valid birthdays could be migrated" ∈ (migrateFromV0 v).errors) ∧
    ((migrateEntriesLoop items 0).1 ≠ [] →
      ((migrateFromV0 v).success = true ↔
        (validateBirthdayData
          (BirthdayData.mk (migrateEntriesLoop items 0).1).toJVal).isOk = true)) := by
  obtain ⟨hA, hB⟩ := migrateEntriesLoop_spec items 0
  have hred : migrateFromV0 v =
      (if (migrateEntriesLoop items 0).1.isEmpty then
        { success := false, warnings := (migrateEntriesLoop items 0).2,
          errors := ["No valid birthdays could be migrated"] }
      else
        match validateBirthdayData (BirthdayData.mk (migrateEntriesLoop items 0).1).toJVal with
        | .ok validatedData =>
          { data := some validatedData, success := true,
            warnings := (migrateEntriesLoop items 0).2, errors := [] }
        | .error e =>
          { success := false, warnings := (migrateEntriesLoop items 0).2,
            errors := ["V0 migration failed: " ++ e.message] } : MigrationPartial) := by
    unfold migrateFromV0
    rw [if_neg (by simp [hv, hobj]), harr]
  refine ⟨hA, hB, ?_, ?_⟩
  · intro hempty
    rw [hred, if_pos (by simp [hempty])]
    exact ⟨rfl, by simp⟩
  · intro hne
    rw [hred, if_neg (by simp [hne])]
    cases hval : validateBirthdayData
        (BirthdayData.mk (migrateEntriesLoop items 0).1).toJVal with
    | ok vd => simp [Except.isOk, Except.toBool]
    | error e => simp [Except.isOk, Except.toBool]

/-- Witness for claim C4 on the concrete mixed legacy roster: one entry
skipped with a warning, one non-object skipped, one migrated. -/
theorem migrateFromV0_skip_and_failure_witness :
    (migrateEntriesLoop mixedLegacyItems 0).1
      = mixedLegacyItems.filterMap migrateEntryOption :=
  (migrateFromV0_skip_and_failure mixedLegacyExample mixedLegacyItems
    (by rfl) (by rfl) (by rfl)).1

/-- Counterexample to claim C4 as stated: dupLegacyExample migrates both
of its entries (no skip warnings), yet the migration as a whole fails
because post-migration validation rejects the case-folded duplicate names,
so success = false does not hold exactly when zero entries migrated. -/
theorem migrateFromV0_fails_despite_migrated_entries :
    (migrateEntriesLoop dupLegacyItems 0).1.length = 2 ∧
    (migrateEntriesLoop dupLegacyItems 0).2 = [] ∧
    (migrateFromV0 dupLegacyExample).success = false ∧
    (migrateFromV0 dupLegacyExample).errors
      = ["V0 migration failed: Birthday entry 1: Duplicate name found: ann"] := by
  refine ⟨by decide, by decide, by decide, by decide⟩

/-- Inserting into the group record keeps every member under its own key. -/
theorem groupInsert_key (k : String) (b : UpcomingBirthday)
    (acc : List (String × List UpcomingBirthday))
    (hacc : ∀ p ∈ acc, ∀ x ∈ p.2, upcomingKey x = p.1) (hb : upcomingKey b = k) :
    ∀ p ∈ groupInsert k b acc, ∀ x ∈ p.2, upcomingKey x = p.1 := by
  induction acc with
  | nil =>
    intro p hp x hx
    simp only [groupInsert, List.mem_singleton] at hp
    subst hp
    simp only [List.mem_singleton] at hx
    subst hx
    exact hb
  | cons q rest ih =>
    intro p hp x hx
    obtain ⟨k0, g⟩ := q
    simp only [groupInsert] at hp
    by_cases hk : (k0 == k) = true
    · rw [if_pos hk] at hp
      rcases List.mem_cons.1 hp with hpq | hprest
      · subst hpq
        rcases List.mem_append.1 hx with hxg | hxb
        · exact hacc (k0, g) (List.mem_cons_self _ _) x hxg
        · rw [List.mem_singleton] at hxb
          subst hxb
          rw [hb]
          exact (beq_iff_eq.1 hk).symm
      · exact hacc p (List.mem_cons_of_mem _ hprest) x hx
    · rw [if_neg hk] at hp
      rcases List.mem_cons.1 hp with hpq | hprest
      · subst hpq
        exact hacc (k0, g) (List.mem_cons_self _ _) x hx
      · exact ih (fun p2 hp2 => hacc p2 (List.mem_cons_of_mem _ hp2)) p hprest x hx

/-- Inserting into the group record appends the key when it is new. -/
theorem groupInsert_keys (k : String) (b : UpcomingBirthday)
    (acc : List (String × List UpcomingBirthday)) :
    (groupInsert k b acc).map Prod.fst =
      if k ∈ acc.map Prod.fst then acc.map Prod.fst else acc.map Prod.fst ++ [k] := by
  induction acc with
  | nil => simp [groupInsert]
  | cons q rest ih =>
    obtain ⟨k0, g⟩ := q
    simp only [groupInsert, List.map_cons]
    by_cases hk : (k0 == k) = true
    · rw [if_pos hk, if_pos (by simp [List.mem_cons]; exact Or.inl (beq_iff_eq.1 hk).symm)]
      simp
    · rw [if_neg hk]
      have hne : k ≠ k0 := fun he => hk (by simp [he])
      by_cases hmem : k ∈ rest.map Prod.fst
      · rw [if_pos (by simp [List.mem_cons, hmem])]
        simp only [List.map_cons, ih, if_pos hmem]
      · rw [if_neg (by simp [List.mem_cons, hne, hmem])]
        simp only [List.map_cons, ih, if_neg hmem]
        simp

/-- Inserting into the group record keeps the keys without duplicates. -/
theorem groupInsert_nodup (k : String) (b : UpcomingBirthday)
    (acc : List (String × List UpcomingBirthday))
    (h : (acc.map Prod.fst).Nodup) : ((groupInsert k b acc).map Prod.fst).Nodup := by
  rw [groupInsert_keys]
  by_cases hmem : k ∈ acc.map Prod.fst
  · rw [if_pos hmem]
    exact h
  · rw [if_neg hmem]
    simp [List.nodup_append, h, hmem]

/-- Inserting a member adds it, up to permutation, to the flattened record. -/
theorem groupInsert_flat (k : String) (b : UpcomingBirthday)
    (acc : List (String × List UpcomingBirthday)) :
    List.Perm ((groupInsert k b acc).flatMap (fun p => p.2))
      (acc.flatMap (fun p => p.2) ++ [b]) := by
  induction acc with
  | nil => simp [groupInsert]
  | cons q rest ih =>
    obtain ⟨k0, g⟩ := q
    simp only [groupInsert]
    by_cases hk : (k0 == k) = true
    · rw [if_pos hk]
      simp only [List.flatMap_cons]
      rw [List.append_assoc, List.append_assoc]
      exact List.Perm.append_left g List.perm_append_comm
    · rw [if_neg hk]
      simp only [List.flatMap_cons]
      rw [List.append_assoc]
      exact List.Perm.append_left g ih

/-- The group record of a list partitions it: members sit under their own
key, keys are distinct, and the flattened record is a permutation of the
input. -/
theorem groupUpcoming_partition (future : List UpcomingBirthday) :
    (∀ p ∈ groupUpcoming future, ∀ x ∈ p.2, upcomingKey x = p.1) ∧
    ((groupUpcoming future).map Prod.fst).Nodup ∧
    List.Perm ((groupUpcoming future).flatMap (fun p => p.2)) future := by
  have haux : ∀ (l acc : _),
      (∀ p ∈ acc, ∀ x ∈ (p : String × List UpcomingBirthday).2, upcomingKey x = p.1) →
      ((acc.map Prod.fst).Nodup) →
      (∀ p ∈ l.foldl (fun acc b => groupInsert (upcomingKey b) b acc) acc,
          ∀ x ∈ (p : String × List UpcomingBirthday).2, upcomingKey x = p.1) ∧
      (((l.foldl (fun acc b => groupInsert (upcomingKey b) b acc) acc).map
          Prod.fst).Nodup) ∧
      List.Perm ((l.foldl (fun acc b => groupInsert (upcomingKey b) b acc) acc).flatMap
          (fun p => p.2))
        (acc.flatMap (fun p => p.2) ++ l) := by
    intro l
    induction l with
    | nil =>
      intro acc h1 h2
      exact ⟨h1, h2, by simp⟩
    | cons b t ih =>
      intro acc h1 h2
      obtain ⟨ihA, ihB, ihC⟩ := ih (groupInsert (upcomingKey b) b acc)
        (groupInsert_key (upcomingKey b) b acc h1 rfl)
        (groupInsert_nodup (upcomingKey b) b acc h2)
      refine ⟨ihA, ihB, ?_⟩
      have h3 := (groupInsert_flat (upcomingKey b) b acc).append_right t
      rw [show (b :: t) = [b] ++ t from rfl, ← List.append_assoc]
      exact ihC.trans h3
  obtain ⟨hA, hB, hC⟩ := haux future [] (by simp) (by simp)
  exact ⟨hA, hB, by simpa using hC⟩

/-- Every rendered group line is a section block. -/
theorem renderGroupLine_is_section (g : List UpcomingBirthday) :
    ∃ t, renderGroupLine g = .sectionBlock t := by
  cases g with
  | nil => exact ⟨"", rfl⟩
  | cons f rest => exact ⟨_, rfl⟩

/-- Claim C7 (amended): the group record partitions the future entries by
their (daysUntil, displayDate) key; at most 10 groups render in compact
mode and 20 in expanded mode; and a single more-summary context line is
present exactly when the future entry count exceeds the rendered group
count, reporting that difference (which is not in general the count of
entries left unrendered). -/
theorem generateUpcomingBirthdaysSection_spec (ups : List UpcomingBirthday)
    (expanded : Bool) :
    ((renderedGroupsOf (futureOf ups) expanded).length ≤ if expanded then 20 else 10) ∧
    (∀ p ∈ groupUpcoming (futureOf ups), ∀ x ∈ p.2, upcomingKey x = p.1) ∧
    ((groupUpcoming (futureOf ups)).map Prod.fst).Nodup ∧
    List.Perm ((groupUpcoming (futureOf ups)).flatMap (fun p => p.2)) (futureOf ups) ∧
    (∀ s, SBlock.contextBlock s ∈ generateUpcomingBirthdaysSection ups expanded ↔
      ((renderedGroupsOf (futureOf ups) expanded).length < (futureOf ups).length ∧
        s = "... and " ++ toString ((futureOf ups).length
          - (renderedGroupsOf (futureOf ups) expanded).length) ++ " more")) := by
  obtain ⟨hA, hB, hC⟩ := groupUpcoming_partition (futureOf ups)
  refine ⟨?_, hA, hB, hC, ?_⟩
  · unfold renderedGroupsOf
    rw [List.length_take]
    cases expanded <;> simp
  · intro s
    unfold generateUpcomingBirthdaysSection
    by_cases hempty : (futureOf ups).isEmpty = true
    · rw [if_pos hempty]
      have hlen : (futureOf ups).length = 0 := by
        cases hfu : futureOf ups
        · simp
        · rw [hfu] at hempty; simp [List.isEmpty] at hempty
      constructor
      · intro hmem
        cases hmem
      · intro ⟨hlt, _⟩
        omega
    · rw [if_neg hempty]
      constructor
      · intro hmem
        rcases List.mem_append.1 hmem with hmem1 | hdiv
        · rcases List.mem_append.1 hmem1 with hmem2 | hsum
          · rcases List.mem_append.1 hmem2 with hhead | hline
            · rw [List.mem_singleton] at hhead
              cases hhead
            · rcases List.mem_map.1 hline with ⟨g, _, hg⟩
              obtain ⟨t, ht⟩ := renderGroupLine_is_section g.2
              rw [ht] at hg
              cases hg
          · unfold upcomingSummary at hsum
            by_cases hlt : (renderedGroupsOf (futureOf ups) expanded).length
                < (futureOf ups).length
            · rw [if_pos hlt] at hsum
              rw [List.mem_singleton] at hsum
              cases hsum
              exact ⟨hlt, rfl⟩
            · rw [if_neg hlt] at hsum
              cases hsum
        · rw [List.mem_singleton] at hdiv
          cases hdiv
      · intro ⟨hlt, hs⟩
        subst hs
        refine List.mem_append.2 (Or.inl (List.mem_append.2 (Or.inr ?_)))
        unfold upcomingSummary
        rw [if_pos hlt]
        exact List.mem_singleton.2 rfl

/-- Witness for claim C7 at the concrete cut-off input. -/
theorem generateUpcomingBirthdaysSection_spec_witness :
    SBlock.contextBlock "... and 2 more"
      ∈ generateUpcomingBirthdaysSection cutoffExample false :=
  ((generateUpcomingBirthdaysSection_spec cutoffExample false).2.2.2.2
    "... and 2 more").2 ⟨by decide, by decide⟩

/-- Counterexample to claim C7 as stated: on cutoffExample eleven groups
exist and ten render, exactly one entry is left unrendered, yet the single
summary line reads two more - the reported count is future entries minus
rendered groups, not the count of remaining entries. -/
theorem generateUpcomingBirthdaysSection_more_count_counterexample :
    (sortedGroupsOf (futureOf cutoffExample)).length = 11 ∧
    (renderedGroupsOf (futureOf cutoffExample) false).length = 10 ∧
    (futureOf cutoffExample).length
      - ((renderedGroupsOf (futureOf cutoffExample) false).map
          (fun p => p.2.length)).sum = 1 ∧
    SBlock.contextBlock "... and 2 more"
      ∈ generateUpcomingBirthdaysSection cutoffExample false ∧
    ¬ SBlock.contextBlock "... and 1 more"
      ∈ generateUpcomingBirthdaysSection cutoffExample false := by
  refine ⟨by decide, by decide, by decide, by decide, by decide⟩

end DwellBirthday
